import Mathlib

/-!
Verification of the openage renderer core (`renderer/opengl/renderer.cpp`,
`renderer/render_pass.h`) against its specification.

The embedding models:
* the uniform-buffer layout loop of `GlRenderer::add_uniform_buffer`,
* the `RenderPass` layer/renderable bookkeeping (`add_renderables`,
  `clear_renderables`, accessors),
* `GlRenderer::optimise` (stable sort by shader handle, guarded by the
  `is_optimised` flag),
* `GlRenderer::render` as a trace of GL commands.
-/

namespace Openage

/-- A GL shader program handle (`GLuint` returned by `get_handle()`). -/
structure GlShaderProgram where
  handle : Nat
deriving DecidableEq

/-- A uniform input object; `get_program()` returns the shader program it
binds to (`GlUniformInput` in the source). -/
structure GlUniformInput where
  program : GlShaderProgram
deriving DecidableEq

/-- A draw-call descriptor (`renderer/renderable.h`): an optional geometry
reference, the uniform input binding a shader program, and two state flags. -/
structure Renderable where
  geometry : Option Nat
  uniform : GlUniformInput
  alpha_blending : Bool
  depth_test : Bool
deriving DecidableEq

/-- Shader identity of a renderable, as computed in `GlRenderer::optimise`:
`dyn_cast<GlShaderProgram>(dyn_cast<GlUniformInput>(r.uniform)->get_program())->get_handle()`. -/
def shaderOf (r : Renderable) : Nat :=
  r.uniform.program.handle

/-- A layer of a render pass (`render_pass.h`, `struct Layer`): a priority and
the number of consecutive renderables in the slice. -/
structure Layer where
  priority : Int
  length : Nat
deriving DecidableEq

/-- State of a `GlRenderPass`: the renderable sequence, the layer slices, the
render target (identified by a handle), and the optimisation flag. -/
structure GlRenderPass where
  renderables : List Renderable
  layers : List Layer
  target : Nat
  is_optimised : Bool
deriving DecidableEq

/-! ## Uniform buffer layout (`GlRenderer::add_uniform_buffer`, renderer.cpp:87-113)

The loop keeps a running `offset`; for each input of byte size `size` it
executes `offset += offset % size;` (the comment in the source says
"align offset to the size of the type"), records `(offset, size)`, and then
advances `offset += size;`. -/

/-- The offset computation of `GlRenderer::add_uniform_buffer`, translated
directly from the source loop: given the running offset and the list of input
sizes, returns the `(byte_offset, byte_size)` pairs recorded in the
`GlInBlockUniform` entries, in input order. -/
def uboOffsets : Nat → List Nat → List (Nat × Nat)
  | _, [] => []
  | offset, size :: rest =>
    let offset := offset + offset % size
    (offset, size) :: uboOffsets (offset + size) rest

/-- Modelled from the spec: the layout the specification demands. Each input's
offset is the smallest value greater than or equal to the previous input's end
that is a multiple of the type's size (`alignUpTo`), which is what the source
comment "align offset to the size of the type" intends. -/
def alignUpTo (offset size : Nat) : Nat :=
  if offset % size = 0 then offset else offset + (size - offset % size)

/-- Modelled from the spec: the offset computation described in §4.2 of the
specification, aligning each running offset up to the next multiple of the
input's size before recording it. -/
def uboOffsetsSpec : Nat → List Nat → List (Nat × Nat)
  | _, [] => []
  | offset, size :: rest =>
    let offset := alignUpTo offset size
    (offset, size) :: uboOffsetsSpec (offset + size) rest

/-! ## RenderPass layer bookkeeping

`render_pass.h` declares `add_renderables`, `add_layer`, `clear_renderables`
and the accessors; the defining `render_pass.cpp` is not part of the inspected
sources, so the mutators are modelled from §4.1 of the specification. -/

/-- Modelled from the spec: `LAYER_PRIORITY_MAX` from `renderer/definitions.h`
(not among the inspected sources), the default priority of `add_renderables`. -/
def LAYER_PRIORITY_MAX : Int := 2 ^ 63 - 1

/-- Sum of the `length` fields of a list of layers. -/
def sumLengths (ls : List Layer) : Nat :=
  (ls.map Layer.length).sum

/-- Index of the first layer with exactly the given priority, if any.
Models the "if a layer with exactly `priority` already exists" test of §4.1. -/
def findLayerIdx : List Layer → Int → Option Nat
  | [], _ => none
  | l :: ls, pri =>
    if l.priority = pri then some 0
    else (findLayerIdx ls pri).map (· + 1)

/-- Grow the `length` field of the layer at the given index by `n`. -/
def growLayer : List Layer → Nat → Nat → List Layer
  | [], _, _ => []
  | l :: ls, 0, n => { l with length := l.length + n } :: ls
  | l :: ls, i + 1, n => l :: growLayer ls i n

/-- Insertion index that keeps `layers` sorted by descending priority: the
number of leading layers whose priority is strictly greater than `pri`. -/
def layerInsertIdx (ls : List Layer) (pri : Int) : Nat :=
  (ls.takeWhile (fun l => pri < l.priority)).length

/-- Insert the block `xs` into `l` at position `i`. -/
def insertAt (l : List α) (i : Nat) (xs : List α) : List α :=
  l.take i ++ xs ++ l.drop i

/-- Number of renderables stored before the slice of the layer at index `i`:
the sum of the lengths of the first `i` layers. -/
def sliceStart (ls : List Layer) (i : Nat) : Nat :=
  sumLengths (ls.take i)

/-- Modelled from the spec: `RenderPass::add_renderables(list, priority)`
(declared at render_pass.h:77, defined in the uninspected render_pass.cpp).
If a layer with exactly `priority` exists, the block is appended to the end of
that layer's span and the layer's `length` grows; otherwise a new layer is
created at the position that keeps `layers` sorted by descending priority, and
the block is inserted at the corresponding position of the renderable
sequence. -/
def GlRenderPass.add_renderables (p : GlRenderPass) (new : List Renderable)
    (pri : Int := LAYER_PRIORITY_MAX) : GlRenderPass :=
  match findLayerIdx p.layers pri with
  | some i =>
    { p with
      renderables := insertAt p.renderables (sliceStart p.layers (i + 1)) new
      layers := growLayer p.layers i new.length }
  | none =>
    let i := layerInsertIdx p.layers pri
    { p with
      renderables := insertAt p.renderables (sliceStart p.layers i) new
      layers := insertAt p.layers i [⟨pri, new.length⟩] }

/-- Modelled from the spec: the single-renderable overload of
`add_renderables` (render_pass.h:86), the convenience form for one item. -/
def GlRenderPass.add_renderable (p : GlRenderPass) (r : Renderable)
    (pri : Int := LAYER_PRIORITY_MAX) : GlRenderPass :=
  p.add_renderables [r] pri

/-- Modelled from the spec: `RenderPass::clear_renderables` (render_pass.h:100)
empties both `renderables` and `layers`; the target is retained. -/
def GlRenderPass.clear_renderables (p : GlRenderPass) : GlRenderPass :=
  { p with renderables := [], layers := [] }

/-- Modelled from the spec: `RenderPass::set_renderables` (render_pass.h:69)
atomically replaces the whole sequence, treated as a single layer at the
default priority; previous layer structure is invalidated. -/
def GlRenderPass.set_renderables (p : GlRenderPass) (rs : List Renderable) :
    GlRenderPass :=
  { p with renderables := rs, layers := [⟨LAYER_PRIORITY_MAX, rs.length⟩] }

/-- Modelled from the spec: a freshly created `RenderPass` with no
renderables, writing to the given target. -/
def GlRenderPass.new (target : Nat) : GlRenderPass :=
  { renderables := [], layers := [], target := target, is_optimised := false }

/-! ## `GlRenderer::optimise` (renderer.cpp:148-164)

If the pass is not yet optimised, its renderables are stable-sorted by the
`GLuint` handle of the bound shader program (`std::stable_sort` with the
strict comparator `shader_a < shader_b`, i.e. the stable sort for the total
preorder `shaderOf a ≤ shaderOf b`), stored back via `set_renderables`, and
the flag is set; otherwise nothing happens. -/

/-- The comparator of `GlRenderer::optimise` as the non-strict total preorder
used by the stable sort. -/
def shaderLe (a b : Renderable) : Bool :=
  shaderOf a ≤ shaderOf b

/-- `GlRenderer::optimise` (renderer.cpp:148-164). -/
def GlRenderer.optimise (p : GlRenderPass) : GlRenderPass :=
  if p.is_optimised = false then
    let sorted := p.renderables.mergeSort shaderLe
    { p.set_renderables sorted with is_optimised := true }
  else p

/-! ## `GlRenderer::render` (renderer.cpp:171-211)

Modelled as the trace of GL commands the function issues, together with the
pass state after the call. -/

/-- One GL command issued by `GlRenderer::render`. -/
inductive GlCmd where
  /-- `gl_target->bind_write()` on the pass's target. -/
  | bindWrite (target : Nat) : GlCmd
  /-- `glClear(GL_COLOR_BUFFER_BIT | GL_DEPTH_BUFFER_BIT)`. -/
  | clearColorDepth : GlCmd
  /-- `glEnable(GL_BLEND)`. -/
  | enableBlend : GlCmd
  /-- `glDisable(GL_BLEND)`. -/
  | disableBlend : GlCmd
  /-- `glEnable(GL_DEPTH_TEST)`. -/
  | enableDepthTest : GlCmd
  /-- `glDisable(GL_DEPTH_TEST)`. -/
  | disableDepthTest : GlCmd
  /-- `program->update_uniforms(in)`, which also activates the program. -/
  | updateUniforms (program : Nat) : GlCmd
  /-- `geom->draw()` on the renderable's geometry. -/
  | draw (geometry : Nat) : GlCmd
deriving DecidableEq

/-- Whether a command is a draw call. -/
def GlCmd.isDraw : GlCmd → Bool
  | .draw _ => true
  | _ => false

/-- The commands issued for a single renderable by the loop body of
`GlRenderer::render` (renderer.cpp:183-210): blend state per `alpha_blending`,
depth state per `depth_test`, uniform/program binding, and a draw call iff the
geometry reference is present. -/
def renderObj (obj : Renderable) : List GlCmd :=
  (if obj.alpha_blending then [GlCmd.enableBlend] else [GlCmd.disableBlend]) ++
  (if obj.depth_test then [GlCmd.enableDepthTest] else [GlCmd.disableDepthTest]) ++
  [GlCmd.updateUniforms (shaderOf obj)] ++
  (match obj.geometry with
   | some g => [GlCmd.draw g]
   | none => [])

/-- Result of `GlRenderer::render`: the pass (threaded through, since the
function only calls const accessors on it) and the issued command trace. -/
structure RenderResult where
  pass : GlRenderPass
  trace : List GlCmd
deriving DecidableEq

/-- `GlRenderer::render` (renderer.cpp:171-211): bind the pass's target, clear
color and depth buffers, then process the renderables in stored sequence
order. -/
def GlRenderer.render (p : GlRenderPass) : RenderResult :=
  { pass := p
    trace := GlCmd.bindWrite p.target :: GlCmd.clearColorDepth ::
      p.renderables.flatMap renderObj }

/-! ## Derived predicates and concrete instances -/

/-- The layer sequence is sorted by strictly descending priority. -/
def LayersDesc (ls : List Layer) : Prop :=
  List.Pairwise (fun a b : Layer => b.priority < a.priority) ls

/-- The render-pass invariant of §3/§8 of the specification: layers sorted by
strictly descending priority, and the layer lengths partition the renderable
sequence. -/
def PassInv (p : GlRenderPass) : Prop :=
  LayersDesc p.layers ∧ sumLengths p.layers = p.renderables.length

/-- Apply a sequence of `add_renderables` calls (block, priority) to a pass. -/
def applyCalls : GlRenderPass → List (List Renderable × Int) → GlRenderPass
  | p, [] => p
  | p, c :: cs => applyCalls (p.add_renderables c.1 c.2) cs

/-- A concrete renderable bound to shader handle 2, with geometry. -/
def wr1 : Renderable :=
  { geometry := some 10, uniform := ⟨⟨2⟩⟩, alpha_blending := true, depth_test := false }

/-- A concrete renderable bound to shader handle 2, without geometry. -/
def wr2 : Renderable :=
  { geometry := none, uniform := ⟨⟨2⟩⟩, alpha_blending := false, depth_test := true }

/-- A concrete renderable bound to shader handle 1. -/
def wr3 : Renderable :=
  { geometry := some 11, uniform := ⟨⟨1⟩⟩, alpha_blending := true, depth_test := true }

/-- A concrete, not yet optimised render pass holding `[wr1, wr2, wr3]`. -/
def wPass : GlRenderPass :=
  { renderables := [wr1, wr2, wr3], layers := [⟨5, 3⟩], target := 7, is_optimised := false }

/-! ## Helper lemmas -/

theorem insertAt_length (l : List α) (i : Nat) (xs : List α) :
    (insertAt l i xs).length = l.length + xs.length := by
  simp [insertAt]
  omega

theorem sumLengths_append (a b : List Layer) :
    sumLengths (a ++ b) = sumLengths a + sumLengths b := by
  simp [sumLengths]

theorem sumLengths_cons (l : Layer) (ls : List Layer) :
    sumLengths (l :: ls) = l.length + sumLengths ls := by
  simp [sumLengths]

theorem sumLengths_take_drop (ls : List Layer) (i : Nat) :
    sumLengths (ls.take i) + sumLengths (ls.drop i) = sumLengths ls := by
  rw [← sumLengths_append, List.take_append_drop]

theorem sumLengths_insertAt (ls : List Layer) (i : Nat) (xs : List Layer) :
    sumLengths (insertAt ls i xs) = sumLengths ls + sumLengths xs := by
  rw [insertAt, sumLengths_append, sumLengths_append]
  have := sumLengths_take_drop ls i
  omega

theorem growLayer_map_priority (ls : List Layer) (i n : Nat) :
    (growLayer ls i n).map Layer.priority = ls.map Layer.priority := by
  induction ls generalizing i with
  | nil => rfl
  | cons l ls ih =>
    cases i with
    | zero => rfl
    | succ j => simp [growLayer, ih]

theorem sumLengths_growLayer (ls : List Layer) (i n : Nat) (h : i < ls.length) :
    sumLengths (growLayer ls i n) = sumLengths ls + n := by
  induction ls generalizing i with
  | nil => simp at h
  | cons l ls ih =>
    cases i with
    | zero => simp [growLayer, sumLengths_cons]; omega
    | succ j =>
      have hj : j < ls.length := by simpa using h
      simp [growLayer, sumLengths_cons, ih j hj]
      omega

theorem findLayerIdx_some_lt (ls : List Layer) (pri : Int) (i : Nat)
    (h : findLayerIdx ls pri = some i) : i < ls.length := by
  induction ls generalizing i with
  | nil => simp [findLayerIdx] at h
  | cons l ls ih =>
    by_cases hp : l.priority = pri
    · simp [findLayerIdx, hp] at h
      simp only [List.length_cons]
      omega
    · simp [findLayerIdx, hp] at h
      obtain ⟨j, hj, hji⟩ := h
      have := ih j hj
      simp
      omega

theorem findLayerIdx_none (ls : List Layer) (pri : Int)
    (h : findLayerIdx ls pri = none) : ∀ l ∈ ls, l.priority ≠ pri := by
  induction ls with
  | nil => intro l hl; simp at hl
  | cons l ls ih =>
    by_cases hp : l.priority = pri
    · simp [findLayerIdx, hp] at h
    · simp [findLayerIdx, hp] at h
      intro x hx
      rcases List.mem_cons.mp hx with rfl | hx
      · exact hp
      · exact ih h x hx

theorem mem_insertAt {b : α} {l : List α} {i : Nat} {xs : List α}
    (h : b ∈ insertAt l i xs) : b ∈ xs ∨ b ∈ l := by
  rw [insertAt] at h
  rcases List.mem_append.mp h with h1 | h2
  · rcases List.mem_append.mp h1 with h3 | h4
    · exact Or.inr (List.mem_of_mem_take h3)
    · exact Or.inl h4
  · exact Or.inr (List.mem_of_mem_drop h2)

theorem layersDesc_growLayer (ls : List Layer) (i n : Nat) (h : LayersDesc ls) :
    LayersDesc (growLayer ls i n) := by
  have hmap : List.Pairwise (fun a b : Int => b < a) (ls.map Layer.priority) :=
    List.pairwise_map.mpr h
  have : List.Pairwise (fun a b : Int => b < a) ((growLayer ls i n).map Layer.priority) := by
    rw [growLayer_map_priority]
    exact hmap
  exact List.pairwise_map.mp this

theorem layersDesc_insert (pri : Int) (n : Nat) (ls : List Layer)
    (hd : LayersDesc ls) (hne : ∀ l ∈ ls, l.priority ≠ pri) :
    LayersDesc (insertAt ls (layerInsertIdx ls pri) [⟨pri, n⟩]) := by
  induction ls with
  | nil => simp [insertAt, layerInsertIdx, LayersDesc]
  | cons l ls ih =>
    rcases List.pairwise_cons.mp hd with ⟨hl, hd'⟩
    by_cases hp : pri < l.priority
    · have hidx : layerInsertIdx (l :: ls) pri = layerInsertIdx ls pri + 1 := by
        simp [layerInsertIdx, List.takeWhile_cons, hp]
      have heq : insertAt (l :: ls) (layerInsertIdx ls pri + 1) [⟨pri, n⟩]
          = l :: insertAt ls (layerInsertIdx ls pri) [⟨pri, n⟩] := by
        simp [insertAt]
      rw [hidx, heq]
      refine List.pairwise_cons.mpr
        ⟨?_, ih hd' (fun x hx => hne x (List.mem_cons_of_mem _ hx))⟩
      intro b hb
      rcases mem_insertAt hb with hb | hb
      · simp at hb
        subst hb
        exact hp
      · exact hl b hb
    · have hlp : l.priority < pri :=
        lt_of_le_of_ne (not_lt.mp hp) (hne l (List.mem_cons_self _ _))
      have hidx : layerInsertIdx (l :: ls) pri = 0 := by
        simp [layerInsertIdx, List.takeWhile_cons, hp]
      rw [hidx]
      have heq : insertAt (l :: ls) 0 [⟨pri, n⟩] = ⟨pri, n⟩ :: l :: ls := by
        simp [insertAt]
      rw [heq]
      refine List.pairwise_cons.mpr ⟨?_, hd⟩
      intro b hb
      rcases List.mem_cons.mp hb with rfl | hb
      · exact hlp
      · exact lt_trans (hl b hb) hlp

theorem passInv_new (t : Nat) : PassInv (GlRenderPass.new t) := by
  constructor
  · simp [GlRenderPass.new, LayersDesc]
  · simp [GlRenderPass.new, sumLengths]

theorem passInv_add (p : GlRenderPass) (new : List Renderable) (pri : Int)
    (h : PassInv p) : PassInv (p.add_renderables new pri) := by
  obtain ⟨hd, hs⟩ := h
  cases hfind : findLayerIdx p.layers pri with
  | some i =>
    have hi : i < p.layers.length := findLayerIdx_some_lt _ _ _ hfind
    constructor
    · simp only [GlRenderPass.add_renderables, hfind]
      exact layersDesc_growLayer _ _ _ hd
    · simp only [GlRenderPass.add_renderables, hfind]
      rw [sumLengths_growLayer _ _ _ hi, insertAt_length]
      omega
  | none =>
    have hne := findLayerIdx_none _ _ hfind
    constructor
    · simp only [GlRenderPass.add_renderables, hfind]
      exact layersDesc_insert _ _ _ hd hne
    · simp only [GlRenderPass.add_renderables, hfind]
      rw [sumLengths_insertAt, insertAt_length, sumLengths_cons]
      have h0 : sumLengths ([] : List Layer) = 0 := rfl
      have h1 : (Layer.mk pri new.length).length = new.length := rfl
      omega

theorem passInv_applyCalls (p : GlRenderPass) (calls : List (List Renderable × Int))
    (h : PassInv p) : PassInv (applyCalls p calls) := by
  induction calls generalizing p with
  | nil => exact h
  | cons c cs ih => exact ih _ (passInv_add _ _ _ h)

theorem shaderLe_trans : ∀ a b c : Renderable,
    shaderLe a b = true → shaderLe b c = true → shaderLe a c = true := by
  intro a b c hab hbc
  simp only [shaderLe, decide_eq_true_eq] at *
  omega

theorem shaderLe_total : ∀ a b : Renderable, (shaderLe a b || shaderLe b a) = true := by
  intro a b
  simp only [shaderLe, Bool.or_eq_true, decide_eq_true_eq]
  omega

theorem optimise_renderables_of_not_optimised (p : GlRenderPass)
    (h : p.is_optimised = false) :
    (GlRenderer.optimise p).renderables = p.renderables.mergeSort shaderLe := by
  simp [GlRenderer.optimise, h, GlRenderPass.set_renderables]

theorem optimise_of_optimised (q : GlRenderPass) (h : q.is_optimised = true) :
    GlRenderer.optimise q = q := by
  simp [GlRenderer.optimise, h]

/-! ## The claims -/

/-- C1: the claim states that each uniform buffer input's byte offset is the
smallest value greater than or equal to the previous input's end that is a
multiple of the type's size, with `[vec4, float, vec4]` laid out at offsets
`0, 16, 32`. The source loop (renderer.cpp:96) executes
`offset += offset % size;`, which does not align: on the claimed input the
third offset comes out as `24`, which is not a multiple of `16`, while the
aligning computation the specification (and the source's own comment) demands
yields `32`. -/
theorem C1_uniform_offsets_diverge :
    uboOffsets 0 [16, 4, 16] = [(0, 16), (16, 4), (24, 16)]
    ∧ uboOffsetsSpec 0 [16, 4, 16] = [(0, 16), (16, 4), (32, 16)]
    ∧ ¬ 24 % 16 = 0 := by
  decide

/-- C2: after any sequence of `add_renderables` calls with arbitrary
priorities on a freshly created pass, the layer sequence is sorted by strictly
descending priority, has no duplicate priorities, and the sum of the layers'
`length` fields equals the number of renderables in the pass. -/
theorem C2_layer_invariant (t : Nat) (calls : List (List Renderable × Int)) :
    LayersDesc (applyCalls (GlRenderPass.new t) calls).layers
    ∧ ((applyCalls (GlRenderPass.new t) calls).layers.map Layer.priority).Nodup
    ∧ sumLengths (applyCalls (GlRenderPass.new t) calls).layers
        = (applyCalls (GlRenderPass.new t) calls).renderables.length := by
  obtain ⟨hd, hs⟩ := passInv_applyCalls (GlRenderPass.new t) calls (passInv_new t)
  refine ⟨hd, ?_, hs⟩
  have hmap : List.Pairwise (fun a b : Int => b < a)
      ((applyCalls (GlRenderPass.new t) calls).layers.map Layer.priority) :=
    List.pairwise_map.mpr hd
  exact hmap.imp (fun h => (ne_of_lt h).symm)

/-- C3: on a pass that has not been optimised yet, `optimise` stable-sorts the
entire renderable sequence by shader identity: the result is pairwise
non-decreasing in shader handle over the whole sequence, and any two
renderables bound to the same shader program keep their relative order. -/
theorem C3_optimise_stable_sort (p : GlRenderPass) (a b : Renderable)
    (hopt : p.is_optimised = false)
    (hab : List.Sublist [a, b] p.renderables)
    (hs : shaderOf a = shaderOf b) :
    List.Pairwise (fun x y => shaderLe x y = true) (GlRenderer.optimise p).renderables
    ∧ List.Sublist [a, b] (GlRenderer.optimise p).renderables := by
  rw [optimise_renderables_of_not_optimised p hopt]
  constructor
  · exact List.sorted_mergeSort shaderLe_trans shaderLe_total _
  · exact List.pair_sublist_mergeSort shaderLe_trans shaderLe_total
      (by simp [shaderLe, hs]) hab

/-- Witness for C3 at a concrete pass: `wPass` is not optimised, `wr1` and
`wr2` share shader handle 2 and occur in this order, and after `optimise` the
sequence is sorted by shader with `wr1` still before `wr2`. -/
theorem C3_witness :
    wPass.is_optimised = false
    ∧ List.Sublist [wr1, wr2] wPass.renderables
    ∧ shaderOf wr1 = shaderOf wr2
    ∧ (List.Pairwise (fun x y => shaderLe x y = true) (GlRenderer.optimise wPass).renderables
       ∧ List.Sublist [wr1, wr2] (GlRenderer.optimise wPass).renderables) :=
  ⟨rfl, by decide, rfl, C3_optimise_stable_sort wPass wr1 wr2 rfl (by decide) rfl⟩

/-- C4: `optimise` leaves the completion flag set, and calling it twice in a
row with no intervening mutation gives exactly the pass produced by the first
call: the second call is a no-op because the flag records completion. -/
theorem C4_optimise_idempotent (p : GlRenderPass) :
    (GlRenderer.optimise p).is_optimised = true
    ∧ GlRenderer.optimise (GlRenderer.optimise p) = GlRenderer.optimise p := by
  cases h : p.is_optimised with
  | true =>
    have he := optimise_of_optimised p h
    constructor
    · rw [he]; exact h
    · rw [he, he]
  | false =>
    have h1 : (GlRenderer.optimise p).is_optimised = true := by
      simp [GlRenderer.optimise, h, GlRenderPass.set_renderables]
    exact ⟨h1, optimise_of_optimised _ h1⟩

/-- C5: `render` first binds the pass's target and clears color and depth
buffers, then emits the per-renderable commands in exactly the stored sequence
order; for each renderable blending is enabled iff `alpha_blending`, depth
testing iff `depth_test`, and its uniform input's shader program is bound; on
a pass with zero renderables the trace is just bind-and-clear, with no draw
call. -/
theorem C5_render_trace (p : GlRenderPass) (obj : Renderable) :
    (GlRenderer.render p).trace
      = GlCmd.bindWrite p.target :: GlCmd.clearColorDepth ::
          p.renderables.flatMap renderObj
    ∧ ((GlCmd.enableBlend ∈ renderObj obj) ↔ obj.alpha_blending = true)
    ∧ ((GlCmd.disableBlend ∈ renderObj obj) ↔ obj.alpha_blending = false)
    ∧ ((GlCmd.enableDepthTest ∈ renderObj obj) ↔ obj.depth_test = true)
    ∧ ((GlCmd.disableDepthTest ∈ renderObj obj) ↔ obj.depth_test = false)
    ∧ GlCmd.updateUniforms (shaderOf obj) ∈ renderObj obj
    ∧ (GlRenderer.render { p with renderables := [] }).trace
        = [GlCmd.bindWrite p.target, GlCmd.clearColorDepth]
    ∧ (GlRenderer.render { p with renderables := [] }).trace.filter GlCmd.isDraw = [] := by
  obtain ⟨geo, u, ab, dt⟩ := obj
  refine ⟨rfl, ?_, ?_, ?_, ?_, ?_, rfl, rfl⟩ <;>
    cases ab <;> cases dt <;> cases geo <;> simp [renderObj, shaderOf]

/-- C6: a renderable whose geometry reference is absent still gets its
blending state, depth-test state, and uniform/program binding applied, but the
emitted command list contains no draw call. -/
theorem C6_absent_geometry_state_only (obj : Renderable) :
    (renderObj { obj with geometry := none }).filter GlCmd.isDraw = []
    ∧ GlCmd.updateUniforms (shaderOf obj) ∈ renderObj { obj with geometry := none }
    ∧ ((GlCmd.enableBlend ∈ renderObj { obj with geometry := none })
        ↔ obj.alpha_blending = true)
    ∧ ((GlCmd.disableBlend ∈ renderObj { obj with geometry := none })
        ↔ obj.alpha_blending = false)
    ∧ ((GlCmd.enableDepthTest ∈ renderObj { obj with geometry := none })
        ↔ obj.depth_test = true)
    ∧ ((GlCmd.disableDepthTest ∈ renderObj { obj with geometry := none })
        ↔ obj.depth_test = false) := by
  obtain ⟨geo, u, ab, dt⟩ := obj
  cases ab <;> cases dt <;> simp [renderObj, shaderOf, GlCmd.isDraw]

/-- C7: creating a fresh pass and adding renderable `a` at priority 5 and then
renderable `b` at priority 10 yields the stored sequence `[b, a]`: the
priority-10 layer precedes the priority-5 layer. -/
theorem C7_priority_roundtrip (t : Nat) (a b : Renderable) :
    (((GlRenderPass.new t).add_renderable a 5).add_renderable b 10).renderables = [b, a]
    ∧ (((GlRenderPass.new t).add_renderable a 5).add_renderable b 10).layers
        = [⟨10, 1⟩, ⟨5, 1⟩] :=
  ⟨rfl, rfl⟩

/-- C8: after `clear_renderables`, the renderable sequence and the layer
sequence are empty, while the render target is the same as before the call. -/
theorem C8_clear_retains_target (p : GlRenderPass) :
    p.clear_renderables.renderables = []
    ∧ p.clear_renderables.layers = []
    ∧ p.clear_renderables.target = p.target :=
  ⟨rfl, rfl, rfl⟩

/-- C9: the renderable sequence after `optimise` is a permutation of the
sequence before the call: no renderable is added, dropped, or duplicated. -/
theorem C9_optimise_permutation (p : GlRenderPass) :
    List.Perm (GlRenderer.optimise p).renderables p.renderables := by
  cases h : p.is_optimised with
  | true => simp [optimise_of_optimised p h]
  | false =>
    rw [optimise_renderables_of_not_optimised p h]
    exact List.mergeSort_perm _ _

/-- C10: `render` does not mutate the pass: the pass state it returns, and in
particular its renderables, layers and target, are exactly the input pass. -/
theorem C10_render_reads_only (p : GlRenderPass) :
    (GlRenderer.render p).pass.renderables = p.renderables
    ∧ (GlRenderer.render p).pass.layers = p.layers
    ∧ (GlRenderer.render p).pass.target = p.target
    ∧ (GlRenderer.render p).pass = p :=
  ⟨rfl, rfl, rfl, rfl⟩

end Openage
